import Mathlib

/-!
Verification of the DriveCatalog client component
(`src/unnamed/part_000`, a React function component).

The component holds its state in six `useState` cells and mutates it only
through `fetchData`, `handleRefresh`, `startEditing`, `cancelEditing` and
`saveFileChanges`, plus a 300ms-debounced wrapper around `fetchData`.
We embed JavaScript strings as `List Char` (`JStr`) so that the string
operations the code performs (`split(',')`, `trim()`, `join(', ')`,
`filter(Boolean)`) can be implemented and reasoned about directly, and we
model every network interaction by the outcome the code can observe:
a thrown error, or a reply carrying the fields the code inspects.
-/

set_option autoImplicit false

namespace DriveCatalog

/-- JavaScript strings, embedded as their character sequences. -/
abbrev JStr := List Char

/-- The whitespace characters removed by JavaScript `String.prototype.trim`
(the ASCII portion, which is all the component can receive from tag input). -/
def isJsWhitespace (c : Char) : Bool :=
  c = ' ' || c = '\t' || c = '\n' || c = '\r' || c = '\x0b' || c = '\x0c'

/-- JavaScript `s.trim()`: remove leading and trailing whitespace. -/
def trim (l : JStr) : JStr :=
  ((l.dropWhile isJsWhitespace).reverse.dropWhile isJsWhitespace).reverse

/-- JavaScript `s.split(sep)` for a one-character separator `sep`:
`"".split(',') = [""]`, and each occurrence of the separator cuts. -/
def splitOnChar (c : Char) : List Char → List (List Char)
  | [] => [[]]
  | x :: xs =>
    if x = c then [] :: splitOnChar c xs
    else
      match splitOnChar c xs with
      | r :: rs => (x :: r) :: rs
      | [] => [[x]]

/-- The `FileData` interface (lines 12-20 of the source). -/
structure FileData where
  id : JStr
  name : JStr
  url : JStr
  file_path : JStr
  tags : List JStr
  notebooklm : Option JStr := none
  created_time : Option JStr := none
deriving Repr, DecidableEq

/-- The `SubSection` interface (lines 22-26). -/
structure SubSection where
  name : JStr
  path : JStr
  files : List FileData
deriving Repr, DecidableEq

/-- The `Section` interface (lines 28-32): a TypeScript
`Record<string, SubSection>` is a string-keyed map whose iteration order is
insertion order, embedded as an association list. -/
structure Section where
  name : JStr
  files : List FileData
  subsections : List (JStr × SubSection)
deriving Repr, DecidableEq

/-- The `editForm` state cell (line 48): the edit draft. -/
structure EditForm where
  name : JStr
  tags : JStr
deriving Repr, DecidableEq

/-- The six `useState` cells of `DriveCatalog` (lines 43-48).
`sections` is the CatalogSnapshot. -/
structure ComponentState where
  sections : List Section
  searchTerm : JStr
  showTags : Bool
  isLoading : Bool
  editingFile : Option JStr
  editForm : EditForm
deriving Repr, DecidableEq

/-- What `fetchData` can observe of its `GET /files` round trip: either the
`fetch`/`response.json()` chain throws, or it yields a parsed body with a
`status` field and a `data` field (the component reads nothing else). -/
inductive FetchOutcome where
  | thrown
  | reply (status : JStr) (data : List Section)
deriving Repr, DecidableEq

/-- First step of `fetchData` (line 51): `setIsLoading(true)`. -/
def fetchDataStart (s : ComponentState) : ComponentState :=
  { s with isLoading := true }

/-- `fetchData` (lines 50-62): set the loading flag, await the request; on a
reply with `status === 'success'` replace `sections` with the reply data,
otherwise (non-success status, or a thrown error caught at line 58) leave
them; finally clear the loading flag. -/
def fetchData (s : ComponentState) (o : FetchOutcome) : ComponentState :=
  let s1 := fetchDataStart s
  let s2 := match o with
    | .thrown => s1
    | .reply status data =>
      if status = "success".toList then { s1 with sections := data } else s1
  { s2 with isLoading := false }

/-- What `handleRefresh` can observe of its `POST /update` request: either
the `fetch` throws, or it resolves to a response (whose `ok` flag and body
the code never reads). -/
inductive TriggerOutcome where
  | thrown
  | replied (ok : Bool)
deriving Repr, DecidableEq

/-- `handleRefresh` (lines 71-80): set the loading flag, await the trigger
`POST /update`; if it throws, the `catch` at line 76 skips the reload; if it
resolves, run `fetchData`; finally clear the loading flag.  The returned
`Bool` records whether the reload (`fetchData`, line 75) was attempted. -/
def handleRefresh (s : ComponentState) (t : TriggerOutcome) (o : FetchOutcome) :
    ComponentState × Bool :=
  let s1 := { s with isLoading := true }
  match t with
  | .thrown => ({ s1 with isLoading := false }, false)
  | .replied _ =>
    let s2 := fetchData s1 o
    ({ s2 with isLoading := false }, true)

/-- JavaScript `arr.join(sep)`: `[] → ""`, one element stands alone, and
`sep` goes between consecutive elements. -/
def joinList (sep : JStr) : List JStr → JStr
  | [] => []
  | t :: ts =>
    match ts with
    | [] => t
    | _ :: _ => t ++ sep ++ joinList sep ts

/-- `startEditing` (lines 82-88): record the file's id as the one being
edited and seed the draft with its current name and its tags joined with
`', '` (`file.tags.join(', ')`, line 86). -/
def startEditing (s : ComponentState) (file : FileData) : ComponentState :=
  { s with editingFile := some file.id,
           editForm := { name := file.name,
                         tags := joinList ", ".toList file.tags } }

/-- `cancelEditing` (lines 90-93): clear the edited-file id and reset the
draft to empty strings. -/
def cancelEditing (s : ComponentState) : ComponentState :=
  { s with editingFile := none, editForm := { name := [], tags := [] } }

/-- The tag list of the PATCH body (line 104):
`editForm.tags.split(',').map(tag => tag.trim()).filter(Boolean)`. -/
def parseDraftTags (s : JStr) : List JStr :=
  ((splitOnChar ',' s).map trim).filter (fun t => t ≠ [])

/-- The `PATCH /files/{id}` request `saveFileChanges` issues: target id from
its `file` argument (line 97) and the JSON body of lines 102-105. -/
structure PatchRequest where
  id : JStr
  name : JStr
  tags : List JStr
deriving Repr, DecidableEq

/-- The request built by `saveFileChanges` (lines 97-106). -/
def savePatchRequest (s : ComponentState) (file : FileData) : PatchRequest :=
  { id := file.id, name := s.editForm.name, tags := parseDraftTags s.editForm.tags }

/-- What `saveFileChanges` can observe of its PATCH round trip: the `fetch`
throws, or it resolves to a response whose `ok` flag the code tests. -/
inductive PatchOutcome where
  | thrown
  | replied (ok : Bool)
deriving Repr, DecidableEq

/-- `saveFileChanges` (lines 95-115): send the PATCH; if it resolves with
`response.ok`, run `fetchData` (line 109) and then `cancelEditing`
(line 110); if it resolves non-OK, or throws into the `catch` at line 112,
change nothing. -/
def saveFileChanges (s : ComponentState) (file : FileData) (p : PatchOutcome)
    (o : FetchOutcome) : ComponentState :=
  match p with
  | .thrown => s
  | .replied ok => if ok then cancelEditing (fetchData s o) else s

/-- The list of file ids currently in Editing (the `editingFile` cell holds
at most one). -/
def activeEditIds (s : ComponentState) : List JStr :=
  s.editingFile.toList

/-- C1: every failing `load` call leaves the CatalogSnapshot exactly as it
was rendered before the call, whether the failure is a thrown transport or
parse error or a reply whose application status is not `"success"`. -/
theorem load_failure_preserves_snapshot (s : ComponentState) (st : JStr)
    (d : List Section) (h : st ≠ "success".toList) :
    (fetchData s .thrown).sections = s.sections ∧
    (fetchData s (.reply st d)).sections = s.sections := by
  refine ⟨rfl, ?_⟩
  rw [show "success".toList = ['s', 'u', 'c', 'c', 'e', 's', 's'] from rfl] at h
  simp [fetchData, fetchDataStart, h]

theorem load_failure_preserves_snapshot_witness :
    (fetchData { sections := [⟨"Docs".toList, [], []⟩], searchTerm := [],
                 showTags := true, isLoading := false, editingFile := none,
                 editForm := ⟨[], []⟩ } .thrown).sections
        = [⟨"Docs".toList, [], []⟩] ∧
    (fetchData { sections := [⟨"Docs".toList, [], []⟩], searchTerm := [],
                 showTags := true, isLoading := false, editingFile := none,
                 editForm := ⟨[], []⟩ } (.reply "error".toList [])).sections
        = [⟨"Docs".toList, [], []⟩] :=
  load_failure_preserves_snapshot _ "error".toList [] (by decide)

/-- C3: a `refreshFromSource` (`handleRefresh`) call whose trigger request
throws never attempts the reload and leaves the CatalogSnapshot unchanged. -/
theorem refresh_trigger_failure_aborts (s : ComponentState) (o : FetchOutcome) :
    (handleRefresh s .thrown o).2 = false ∧
    (handleRefresh s .thrown o).1.sections = s.sections :=
  ⟨rfl, rfl⟩

/-- C6: every `load` call sets the loading flag at its first step and leaves
it cleared when it returns, under every outcome. -/
theorem load_toggles_loading_flag (s : ComponentState) (o : FetchOutcome) :
    (fetchDataStart s).isLoading = true ∧ (fetchData s o).isLoading = false :=
  ⟨rfl, rfl⟩

/-- C7: a successful `load` reply replaces the CatalogSnapshot with exactly
the reply's data, so no part of the prior snapshot is merged in and the
server's section and record order is preserved verbatim. -/
theorem load_success_replaces_snapshot (s : ComponentState) (d : List Section) :
    (fetchData s (.reply "success".toList d)).sections = d := by
  simp [fetchData, fetchDataStart]

/-- A concrete file record used to instantiate theorems with hypotheses. -/
def demoFile : FileData :=
  { id := "f1".toList, name := "Alpha".toList, url := "u1".toList,
    file_path := "p1".toList, tags := ["x".toList, "y".toList] }

/-- A second concrete file record, distinct from `demoFile`. -/
def demoFile2 : FileData :=
  { id := "f2".toList, name := "Beta".toList, url := "u2".toList,
    file_path := "p2".toList, tags := [] }

/-- A concrete state in which `demoFile` is being edited and the draft tag
string is the one named by the spec's example. -/
def demoEditState : ComponentState :=
  { sections := [], searchTerm := [], showTags := true, isLoading := false,
    editingFile := some demoFile.id,
    editForm := { name := "Alpha".toList, tags := "x, y ,  , z".toList } }

/-- C2: the tags field of the update payload sent by `save` is the draft tag
string split on commas, with each piece trimmed and empty pieces discarded;
for the draft `"x, y ,  , z"` this is `["x", "y", "z"]`. -/
theorem save_payload_tags (s : ComponentState) (file : FileData)
    (h : s.editForm.tags = "x, y ,  , z".toList) :
    (savePatchRequest s file).tags
        = ((splitOnChar ',' s.editForm.tags).map trim).filter (fun t => t ≠ []) ∧
    (savePatchRequest s file).tags = ["x".toList, "y".toList, "z".toList] := by
  refine ⟨rfl, ?_⟩
  show parseDraftTags s.editForm.tags = _
  rw [h]
  decide

theorem save_payload_tags_witness :
    (savePatchRequest demoEditState demoFile).tags
        = ["x".toList, "y".toList, "z".toList] :=
  (save_payload_tags demoEditState demoFile rfl).2

/-- C4: the edit session holds at most one active draft in every state, and
beginning an edit on file `a` while file `b` is being edited
deterministically leaves exactly one active edit, namely `a` (the edit of
`b` is discarded). -/
theorem single_active_edit (s : ComponentState) (a b : FileData)
    (h : s.editingFile = some b.id) :
    (∀ s2 : ComponentState, (activeEditIds s2).length ≤ 1) ∧
    (startEditing s a).editingFile = some a.id ∧
    (activeEditIds (startEditing s a)).length = 1 := by
  refine ⟨fun s2 => ?_, rfl, rfl⟩
  cases h2 : s2.editingFile <;> simp [activeEditIds, h2]

theorem single_active_edit_witness :
    (startEditing demoEditState demoFile2).editingFile = some demoFile2.id ∧
    (activeEditIds (startEditing demoEditState demoFile2)).length = 1 :=
  ⟨(single_active_edit demoEditState demoFile2 demoFile rfl).2.1,
   (single_active_edit demoEditState demoFile2 demoFile rfl).2.2⟩

/-- C5: a `save` whose PATCH resolves OK runs the full reload and then exits
Editing (the snapshot is the reload's: resynced), while a `save` whose PATCH
throws or resolves non-OK leaves the whole state — Editing flag, draft and
snapshot — exactly as it was before the attempt. -/
theorem save_success_exits_failure_preserves (s : ComponentState)
    (file : FileData) (o : FetchOutcome) :
    (saveFileChanges s file (.replied true) o).editingFile = none ∧
    (saveFileChanges s file (.replied true) o).sections = (fetchData s o).sections ∧
    saveFileChanges s file .thrown o = s ∧
    saveFileChanges s file (.replied false) o = s :=
  ⟨rfl, rfl, rfl, rfl⟩

/-- C9: `begin(file)` puts exactly `file` into Editing and seeds the draft
with the record's current name and its tags joined by `", "`. -/
theorem begin_edit_seeds_draft (s : ComponentState) (file : FileData) :
    (startEditing s file).editingFile = some file.id ∧
    (startEditing s file).editForm.name = file.name ∧
    (startEditing s file).editForm.tags = joinList ", ".toList file.tags :=
  ⟨rfl, rfl, rfl⟩

/-! ### The debounced query controller

`debouncedFetch = _.debounce(fetchData, 300)` (line 64) together with the
`useEffect` on `searchTerm` (lines 66-69) behaves as a single-slot timer:
each search-text change cancels the pending unfired timer (the effect
cleanup calls `debouncedFetch.cancel()`) and schedules a fetch of the new
text 300ms later; a timer whose deadline passed before the next change has
already fired its fetch; component teardown cancels a still-pending timer.
We embed this as a discrete-event run over timestamped text changes. -/

/-- One search-text change at time `ev.1` with new text `ev.2`: a pending
timer fires first iff its deadline is already reached, otherwise it is
cancelled; then a fetch of the new text is scheduled `delay` later.
Returns the new pending timer and the fetches fired by this step. -/
def debounceStep (delay : Nat) (pending : Option (Nat × JStr)) (ev : Nat × JStr) :
    Option (Nat × JStr) × List JStr :=
  match pending with
  | none => (some (ev.1 + delay, ev.2), [])
  | some (d, v) =>
    if d ≤ ev.1 then (some (ev.1 + delay, ev.2), [v])
    else (some (ev.1 + delay, ev.2), [])

/-- Run the debounce schedule over a time-ordered list of search-text
changes, starting from `pending`; `td = some tEnd` tears the component down
at time `tEnd` (cancelling a timer whose deadline has not yet been reached),
while `td = none` lets the last timer fire.  Returns the texts fetched, in
order. -/
def debounceRun (delay : Nat) (pending : Option (Nat × JStr)) :
    List (Nat × JStr) → Option Nat → List JStr
  | [], none =>
    match pending with
    | none => []
    | some (_, v) => [v]
  | [], some tEnd =>
    match pending with
    | none => []
    | some (d, v) => if d ≤ tEnd then [v] else []
  | ev :: evs, td =>
    (debounceStep delay pending ev).2
      ++ debounceRun delay (debounceStep delay pending ev).1 evs td

/-- The fetches issued for a full sequence of search-text changes, from
mount on (no timer pending before the first change). -/
def debouncedFetches (events : List (Nat × JStr)) (td : Option Nat) : List JStr :=
  debounceRun 300 none events td

/-- `chainedAfter delay prev evs`: the events in `evs` have strictly
increasing times, the first coming after `prev`, and every gap (also from
`prev`) is shorter than `delay`. -/
def chainedAfter (delay : Nat) : Nat → List (Nat × JStr) → Bool
  | _, [] => true
  | prev, (t, _) :: rest =>
    decide (prev < t) && decide (t < prev + delay) && chainedAfter delay t rest

theorem debounceRun_chained_none (delay : Nat) (rest : List (Nat × JStr)) :
    ∀ prev (v : JStr), chainedAfter delay prev rest = true →
      debounceRun delay (some (prev + delay, v)) rest none
        = [(rest.getLastD (prev, v)).2] := by
  induction rest with
  | nil => intro prev v _; rfl
  | cons ev rs ih =>
    intro prev v hc
    obtain ⟨t, w⟩ := ev
    simp only [chainedAfter, Bool.and_eq_true, decide_eq_true_eq] at hc
    obtain ⟨⟨h1, h2⟩, h3⟩ := hc
    simp only [debounceRun, debounceStep]
    rw [if_neg (by omega)]
    simp only [List.nil_append, List.getLastD_cons]
    exact ih t w h3

theorem debounceRun_chained_teardown (delay : Nat) (rest : List (Nat × JStr)) :
    ∀ prev (v : JStr) (tEnd : Nat), chainedAfter delay prev rest = true →
      tEnd < (rest.getLastD (prev, v)).1 + delay →
      debounceRun delay (some (prev + delay, v)) rest (some tEnd) = [] := by
  induction rest with
  | nil =>
    intro prev v tEnd _ hEnd
    simp only [List.getLastD_nil] at hEnd
    simp only [debounceRun]
    rw [if_neg (by omega)]
  | cons ev rs ih =>
    intro prev v tEnd hc hEnd
    obtain ⟨t, w⟩ := ev
    simp only [chainedAfter, Bool.and_eq_true, decide_eq_true_eq] at hc
    obtain ⟨⟨h1, h2⟩, h3⟩ := hc
    simp only [List.getLastD_cons] at hEnd
    simp only [debounceRun, debounceStep]
    rw [if_neg (by omega)]
    simp only [List.nil_append]
    exact ih t w tEnd h3 hEnd

/-- C8: when every search-text change arrives less than the quiet period
(300ms) after the previous one, exactly one fetch is issued and it carries
the final text — each newer change supersedes the pending scheduled fetch —
and if the component is instead torn down before that last deadline, the
pending fetch is cancelled and nothing is issued at all. -/
theorem debounce_single_fetch (t0 : Nat) (v0 : JStr) (rest : List (Nat × JStr))
    (tEnd : Nat) (hchain : chainedAfter 300 t0 rest = true)
    (hEnd : tEnd < (rest.getLastD (t0, v0)).1 + 300) :
    debouncedFetches ((t0, v0) :: rest) none = [(rest.getLastD (t0, v0)).2] ∧
    debouncedFetches ((t0, v0) :: rest) (some tEnd) = [] := by
  constructor
  · show (debounceStep 300 none (t0, v0)).2
        ++ debounceRun 300 (debounceStep 300 none (t0, v0)).1 rest none = _
    simp only [debounceStep, List.nil_append]
    exact debounceRun_chained_none 300 rest t0 v0 hchain
  · show (debounceStep 300 none (t0, v0)).2
        ++ debounceRun 300 (debounceStep 300 none (t0, v0)).1 rest (some tEnd) = _
    simp only [debounceStep, List.nil_append]
    exact debounceRun_chained_teardown 300 rest t0 v0 tEnd hchain hEnd

theorem debounce_single_fetch_witness :
    debouncedFetches [((0 : Nat), ([] : JStr)), (100, "d".toList), (250, "do".toList)]
        none = ["do".toList] ∧
    debouncedFetches [((0 : Nat), ([] : JStr)), (100, "d".toList), (250, "do".toList)]
        (some 400) = [] :=
  debounce_single_fetch 0 [] [(100, "d".toList), (250, "do".toList)] 400
    (by decide) (by decide)

/-! ### Round trip of the draft tag encoding -/

theorem splitOnChar_of_not_mem (c : Char) (l : List Char) (h : c ∉ l) :
    splitOnChar c l = [l] := by
  induction l with
  | nil => rfl
  | cons x xs ih =>
    have hx : ¬ x = c := fun hxc => h (hxc ▸ List.mem_cons_self x xs)
    have hxs : c ∉ xs := fun hm => h (List.mem_cons_of_mem x hm)
    simp only [splitOnChar, if_neg hx, ih hxs]

theorem splitOnChar_append_sep (c : Char) (a l : List Char) (h : c ∉ a) :
    splitOnChar c (a ++ c :: l) = a :: splitOnChar c l := by
  induction a with
  | nil => simp [splitOnChar]
  | cons x xs ih =>
    have hx : ¬ x = c := fun hxc => h (hxc ▸ List.mem_cons_self x xs)
    have hxs : c ∉ xs := fun hm => h (List.mem_cons_of_mem x hm)
    simp only [List.cons_append, splitOnChar, if_neg hx, List.append_eq, ih hxs]

theorem splitOnChar_joinList (t : JStr) (rest : List JStr)
    (ht : ',' ∉ t) (hrest : ∀ u ∈ rest, ',' ∉ u) :
    splitOnChar ',' (joinList ", ".toList (t :: rest))
        = t :: rest.map (fun u => ' ' :: u) := by
  induction rest generalizing t with
  | nil => simpa using splitOnChar_of_not_mem ',' t ht
  | cons u rs ih =>
    have hu : ',' ∉ u := hrest u (List.mem_cons_self u rs)
    have hrs : ∀ w ∈ rs, ',' ∉ w := fun w hw => hrest w (List.mem_cons_of_mem u hw)
    have hstep : joinList ", ".toList (t :: u :: rs)
        = t ++ ',' :: (' ' :: joinList ", ".toList (u :: rs)) := by
      simp [joinList]
    rw [hstep, splitOnChar_append_sep ',' t _ ht]
    have hinner : splitOnChar ',' (' ' :: joinList ", ".toList (u :: rs))
        = (' ' :: u) :: rs.map (fun w => ' ' :: w) := by
      have hrec := ih u hu hrs
      simp only [splitOnChar, if_neg (by decide : ¬ ' ' = ','), hrec]
    rw [hinner]
    simp

theorem trim_space_cons (u : JStr) : trim (' ' :: u) = trim u := by
  simp [trim, List.dropWhile_cons, isJsWhitespace]

/-- C10: for a record whose tags are all non-empty, comma-free and free of
leading and trailing whitespace, beginning an edit (which encodes them as a
`", "`-joined draft string) and saving with the draft untouched yields a
payload whose tags are the record's original tags, element for element. -/
theorem edit_save_roundtrip (s : ComponentState) (file : FileData)
    (h : ∀ t ∈ file.tags, t ≠ [] ∧ ',' ∉ t ∧ trim t = t) :
    (savePatchRequest (startEditing s file) file).tags = file.tags := by
  show parseDraftTags (joinList ", ".toList file.tags) = file.tags
  match hf : file.tags with
  | [] => rfl
  | t :: rest =>
    rw [hf] at h
    have ht := h t (List.mem_cons_self t rest)
    have hrest : ∀ u ∈ rest, u ≠ [] ∧ ',' ∉ u ∧ trim u = u :=
      fun u hu => h u (List.mem_cons_of_mem t hu)
    unfold parseDraftTags
    rw [splitOnChar_joinList t rest ht.2.1 (fun u hu => (hrest u hu).2.1)]
    have hmap : List.map trim (t :: rest.map (fun u => ' ' :: u)) = t :: rest := by
      simp only [List.map_cons, List.map_map, ht.2.2]
      congr 1
      have : ∀ u ∈ rest, (trim ∘ fun w => ' ' :: w) u = id u := by
        intro u hu
        simp [Function.comp, trim_space_cons, (hrest u hu).2.2]
      rw [List.map_congr_left this, List.map_id]
    rw [hmap]
    refine List.filter_eq_self.mpr ?_
    intro a ha
    rcases List.mem_cons.mp ha with rfl | ha
    · simpa using ht.1
    · simpa using (hrest a ha).1

theorem edit_save_roundtrip_witness :
    (savePatchRequest (startEditing demoEditState demoFile) demoFile).tags
        = demoFile.tags :=
  edit_save_roundtrip demoEditState demoFile (by decide)

end DriveCatalog
